import Mathlib

/-!
# Verification of the pptx/docx translator pipeline

A shallow embedding of the translatable-content transform pipeline of the
pptx-translator server.  The repository has two variants of the same server:
one backed by the unofficial Google Translate endpoint (namespace `Google`,
from `server.js`) and one backed by the DeepL API with a process-lifetime
translation cache (namespace `DeepL`).  The zip container, the XML
parser/builder and the HTTP transport are external libraries and are modelled
as parameters (oracles); everything else is translated from the source.

JavaScript conventions used by the model:
* `String.prototype.trim` is modelled by `jsTrim` (strip leading and trailing
  whitespace);
* a JS string is falsy exactly when it is empty;
* plain-object property lookup is modelled as association-list lookup in
  insertion order (prototype-chain properties are out of scope);
* property assignment to an existing key keeps its position, a new key is
  appended.
-/

/-- JS `String.prototype.trim`: strip leading and trailing whitespace. -/
def jsTrim (s : String) : String :=
  (((s.toList.dropWhile Char.isWhitespace).reverse.dropWhile
      Char.isWhitespace).reverse).asString

/-- Association-list lookup, modelling JS `Map.get` / own-property lookup. -/
def assocLookup : List (String × String) → String → Option String
  | [], _ => none
  | (k, v) :: tl, key => if k = key then some v else assocLookup tl key

/-- Association-list update, modelling JS `Map.set`: the first binding of the
key is replaced in place, a missing key is appended. -/
def assocSet : List (String × String) → String → String → List (String × String)
  | [], key, v => [(key, v)]
  | (k, w) :: tl, key, v =>
    if k = key then (k, v) :: tl else (k, w) :: assocSet tl key v

theorem jsTrim_empty : jsTrim "" = "" := rfl

theorem assocLookup_assocSet_self (c : List (String × String)) (k v : String) :
    assocLookup (assocSet c k v) k = some v := by
  induction c with
  | nil => simp [assocSet, assocLookup]
  | cons hd tl ih =>
    by_cases h : hd.1 = k
    · simp [assocSet, h, assocLookup]
    · simp [assocSet, h, assocLookup, ih]

namespace Google

/-- `LANG_CODES` of `server.js` (Google Translate language codes). -/
def LANG_CODES : List (String × String) :=
  [("slovenian", "sl"), ("croatian", "hr"), ("serbian", "sr"), ("english", "en")]

/-- Character class of the `server.js` skip regex
`/^[\d\s\.\,\-\+\%\€\$\£]+$/`. -/
def skipChar (c : Char) : Bool :=
  c.isDigit || c.isWhitespace || c = '.' || c = ',' || c = '-' || c = '+' ||
    c = '%' || c = '€' || c = '$' || c = '£'

/-- `/^[\d\s\.\,\-\+\%\€\$\£]+$/.test(text)`: at least one character, and all
characters in the class. -/
def nonLinguistic (text : String) : Bool :=
  !text.isEmpty && text.toList.all skipChar

/-- `const langCode = LANG_CODES[targetLang] || targetLang;` -/
def resolveLang (targetLang : String) : String :=
  (assocLookup LANG_CODES targetLang).getD targetLang

/-- Outcome of one call to the Google endpoint, at the schema level of its
response: a thrown transport error, an HTML (rate-limit) body, a body that is
not JSON, or parsed JSON data where `data[0]` is either absent/falsy (`none`)
or a list of segment texts (`data[0].map(item => item[0])`). -/
inductive Resp where
  | netError : Resp
  | htmlBody : Resp
  | badJson : Resp
  | json : Option (List String) → Resp

/-- Every response that does not carry a segment list is a backend failure:
transport error, rate-limit HTML, unparseable body, or JSON without `data[0]`. -/
def respFails : Resp → Bool
  | .json (some _) => false
  | _ => true

/-- `translateText` from `server.js`.  `backend` models the
`fetch`/`response.text()` round trip keyed by (text, language code).  Returns
the translated text plus the number of remote calls issued (0 or 1). -/
def translateText (backend : String → String → Resp)
    (text targetLang : String) : String × Nat :=
  if text = "" ∨ jsTrim text = "" then (text, 0)
  else if nonLinguistic text then (text, 0)
  else if (jsTrim text).length < 2 then (text, 0)
  else
    match backend text (resolveLang targetLang) with
    | .netError => (text, 1)
    | .htmlBody => (text, 1)
    | .badJson => (text, 1)
    | .json none => (text, 1)
    | .json (some segs) =>
      (String.join (segs.filter fun s => !s.isEmpty), 1)

end Google

namespace DeepL

/-- `LANG_CODES` of the DeepL variant. -/
def LANG_CODES : List (String × String) :=
  [("slovenian", "SL"), ("croatian", "HR"), ("serbian", "SR"), ("english", "EN")]

/-- Character class of the DeepL variant's skip regex
`/^[\d\s\.\,\-\+\%\€\$\£\:\;\!\?\(\)\[\]\/\\]+$/`. -/
def skipChar (c : Char) : Bool :=
  c.isDigit || c.isWhitespace || c = '.' || c = ',' || c = '-' || c = '+' ||
    c = '%' || c = '€' || c = '$' || c = '£' || c = ':' || c = ';' ||
    c = '!' || c = '?' || c = '(' || c = ')' || c = '[' || c = ']' ||
    c = '/' || c = '\\'

/-- The DeepL variant's non-linguistic test. -/
def nonLinguistic (text : String) : Bool :=
  !text.isEmpty && text.toList.all skipChar

/-- `const langCode = LANG_CODES[targetLang] || targetLang.toUpperCase();` -/
def resolveLang (targetLang : String) : String :=
  (assocLookup LANG_CODES targetLang).getD targetLang.toUpper

/-- Outcome of one call to the DeepL API, at the schema level of its response:
a thrown transport/JSON error, a non-OK HTTP status, or a parsed body where
`data.translations[0]` is absent/falsy (`none`) or carries a translated text. -/
inductive Resp where
  | netError : Resp
  | httpError : Nat → Resp
  | json : Option String → Resp

/-- Failures: transport error, non-success status, or JSON without a first
translation. -/
def respFails : Resp → Bool
  | .json (some _) => false
  | _ => true

/-- The process-lifetime `translationCache`, keyed by `langCode ++ ":" ++ text`. -/
abbrev Cache := List (String × String)

/-- `translateText` of the DeepL variant: skip rules, cache lookup, remote
call, cache population on success.  Returns (result, updated cache, number of
remote calls issued). -/
def translateText (backend : String → String → Resp) (cache : Cache)
    (text targetLang : String) : String × Cache × Nat :=
  if text = "" ∨ jsTrim text = "" then (text, cache, 0)
  else if nonLinguistic text then (text, cache, 0)
  else if (jsTrim text).length < 2 then (text, cache, 0)
  else
    match assocLookup cache (resolveLang targetLang ++ ":" ++ text) with
    | some v => (v, cache, 0)
    | none =>
      match backend text (resolveLang targetLang) with
      | .netError => (text, cache, 1)
      | .httpError _ => (text, cache, 1)
      | .json none => (text, cache, 1)
      | .json (some t) =>
        (t, assocSet cache (resolveLang targetLang ++ ":" ++ text) t, 1)

end DeepL

/-- C4: a text that is empty, whitespace-only, shorter than 2 after trimming,
or matching the variant's non-linguistic pattern is returned unchanged by
`translateText` without any remote backend call, in both variants. -/
theorem c4_skip_rule (gb : String → String → Google.Resp)
    (db : String → String → DeepL.Resp) (cache : DeepL.Cache)
    (text targetLang : String) :
    (text = "" ∨ jsTrim text = "" ∨ (jsTrim text).length < 2 ∨
        Google.nonLinguistic text = true →
      Google.translateText gb text targetLang = (text, 0)) ∧
    (text = "" ∨ jsTrim text = "" ∨ (jsTrim text).length < 2 ∨
        DeepL.nonLinguistic text = true →
      DeepL.translateText db cache text targetLang = (text, cache, 0)) := by
  constructor
  · intro h
    unfold Google.translateText
    by_cases h0 : text = "" ∨ jsTrim text = ""
    · simp [h0]
    · by_cases h1 : Google.nonLinguistic text
      · simp [h0, h1]
      · rcases h with h | h | h | h
        · exact absurd (Or.inl h) h0
        · exact absurd (Or.inr h) h0
        · simp [h0, h1, h]
        · exact absurd h (by simpa using h1)
  · intro h
    unfold DeepL.translateText
    by_cases h0 : text = "" ∨ jsTrim text = ""
    · simp [h0]
    · by_cases h1 : DeepL.nonLinguistic text
      · simp [h0, h1]
      · rcases h with h | h | h | h
        · exact absurd (Or.inl h) h0
        · exact absurd (Or.inr h) h0
        · simp [h0, h1, h]
        · exact absurd h (by simpa using h1)

/-- Witness for C4 at `"12,34 €"`. -/
theorem c4_witness :
    Google.translateText (fun _ _ => .netError) "12,34 €" "english" = ("12,34 €", 0) ∧
    DeepL.translateText (fun _ _ => .netError) [] "12,34 €" "english" =
      ("12,34 €", [], 0) :=
  ⟨(c4_skip_rule (fun _ _ => .netError) (fun _ _ => .netError) [] "12,34 €" "english").1
      (Or.inr (Or.inr (Or.inr (by decide)))),
   (c4_skip_rule (fun _ _ => .netError) (fun _ _ => .netError) [] "12,34 €" "english").2
      (Or.inr (Or.inr (Or.inr (by decide))))⟩

/-- C3: when the backend call fails (transport error, rate-limit HTML body,
non-success status, malformed payload), `translateText` returns the original
text unchanged in both variants, and the DeepL variant leaves its cache
untouched.  Both functions are total, so a backend failure can never raise or
abort the pipeline. -/
theorem c3_backend_failure_fallback (gb : String → String → Google.Resp)
    (db : String → String → DeepL.Resp) (cache : DeepL.Cache)
    (text targetLang : String)
    (hg : Google.respFails (gb text (Google.resolveLang targetLang)) = true)
    (hd : DeepL.respFails (db text (DeepL.resolveLang targetLang)) = true)
    (hmiss : assocLookup cache (DeepL.resolveLang targetLang ++ ":" ++ text) = none) :
    (Google.translateText gb text targetLang).1 = text ∧
    (DeepL.translateText db cache text targetLang).1 = text ∧
    (DeepL.translateText db cache text targetLang).2.1 = cache := by
  refine ⟨?_, ?_, ?_⟩
  · unfold Google.translateText
    by_cases h0 : text = "" ∨ jsTrim text = ""
    · simp [h0]
    by_cases h1 : Google.nonLinguistic text
    · simp [h0, h1]
    by_cases h2 : (jsTrim text).length < 2
    · simp [h0, h1, h2]
    cases hgb : gb text (Google.resolveLang targetLang) with
    | netError => simp [h0, h1, h2, hgb]
    | htmlBody => simp [h0, h1, h2, hgb]
    | badJson => simp [h0, h1, h2, hgb]
    | json o =>
      cases o with
      | none => simp [h0, h1, h2, hgb]
      | some segs => rw [hgb] at hg; simp [Google.respFails] at hg
  · unfold DeepL.translateText
    by_cases h0 : text = "" ∨ jsTrim text = ""
    · simp [h0]
    by_cases h1 : DeepL.nonLinguistic text
    · simp [h0, h1]
    by_cases h2 : (jsTrim text).length < 2
    · simp [h0, h1, h2]
    cases hdb : db text (DeepL.resolveLang targetLang) with
    | netError => simp [h0, h1, h2, hmiss, hdb]
    | httpError s => simp [h0, h1, h2, hmiss, hdb]
    | json o =>
      cases o with
      | none => simp [h0, h1, h2, hmiss, hdb]
      | some t => rw [hdb] at hd; simp [DeepL.respFails] at hd
  · unfold DeepL.translateText
    by_cases h0 : text = "" ∨ jsTrim text = ""
    · simp [h0]
    by_cases h1 : DeepL.nonLinguistic text
    · simp [h0, h1]
    by_cases h2 : (jsTrim text).length < 2
    · simp [h0, h1, h2]
    cases hdb : db text (DeepL.resolveLang targetLang) with
    | netError => simp [h0, h1, h2, hmiss, hdb]
    | httpError s => simp [h0, h1, h2, hmiss, hdb]
    | json o =>
      cases o with
      | none => simp [h0, h1, h2, hmiss, hdb]
      | some t => rw [hdb] at hd; simp [DeepL.respFails] at hd

/-- Witness for C3 with an always-failing transport. -/
theorem c3_witness :
    (Google.translateText (fun _ _ => .netError) "hello" "english").1 = "hello" ∧
    (DeepL.translateText (fun _ _ => .netError) [] "hello" "english").1 = "hello" ∧
    (DeepL.translateText (fun _ _ => .netError) [] "hello" "english").2.1 = [] :=
  c3_backend_failure_fallback (fun _ _ => .netError) (fun _ _ => .netError) []
    "hello" "english" rfl rfl rfl

/-- C5 is false on the code, in both variants.  The Google variant of
`translateText` has no cache at all: every call that passes the skip rules
issues its own remote call, so even two identical calls with a *succeeding*
backend issue two remote calls.  And in the DeepL variant the cache is
populated only on success, so with a failing backend two identical calls also
issue two remote calls.  Both are shown here at ("hello", "english"), the
DeepL one starting from an empty cache. -/
theorem c5_counterexample :
    ¬ ((Google.translateText (fun _ _ => .json (some ["zdravo"])) "hello" "english").2 +
        (Google.translateText (fun _ _ => .json (some ["zdravo"])) "hello" "english").2 ≤ 1) ∧
    ¬ ((DeepL.translateText (fun _ _ => .netError) [] "hello" "english").2.2 +
        (DeepL.translateText (fun _ _ => .netError)
          (DeepL.translateText (fun _ _ => .netError) [] "hello" "english").2.1
          "hello" "english").2.2 ≤ 1) := by
  refine ⟨by decide, by decide⟩

/-- C5 amended.  Google variant: there is no deduplication cache, so every
call whose text passes the skip rules issues exactly one remote call — two
identical calls issue two remote calls (with a deterministic backend both
still return the same result, as the function is stateless).  DeepL variant:
provided the backend call for the pair succeeds with a translation, two calls
with the same (text, targetLanguage) pair issue at most one remote call in
total and both return the same result — the cache is consulted before every
remote call and populated on the first successful translation. -/
theorem c5_cache_idempotent (gb : String → String → Google.Resp)
    (db : String → String → DeepL.Resp) (cache : DeepL.Cache)
    (text targetLang t : String) :
    (¬ (text = "" ∨ jsTrim text = "") → Google.nonLinguistic text = false →
      ¬ ((jsTrim text).length < 2) →
      (Google.translateText gb text targetLang).2 +
        (Google.translateText gb text targetLang).2 = 2) ∧
    (db text (DeepL.resolveLang targetLang) = .json (some t) →
      (DeepL.translateText db cache text targetLang).2.2 +
        (DeepL.translateText db (DeepL.translateText db cache text targetLang).2.1
          text targetLang).2.2 ≤ 1 ∧
      (DeepL.translateText db (DeepL.translateText db cache text targetLang).2.1
          text targetLang).1 = (DeepL.translateText db cache text targetLang).1) := by
  constructor
  · intro h0 h1 h2
    unfold Google.translateText
    simp only [h0, h1, h2, if_false, Bool.false_eq_true]
    cases hgb : gb text (Google.resolveLang targetLang) with
    | netError => simp
    | htmlBody => simp
    | badJson => simp
    | json o => cases o <;> simp
  · intro hs
    by_cases h0 : text = "" ∨ jsTrim text = ""
    · simp [DeepL.translateText, h0]
    by_cases h1 : DeepL.nonLinguistic text
    · simp [DeepL.translateText, h0, h1]
    by_cases h2 : (jsTrim text).length < 2
    · simp [DeepL.translateText, h0, h1, h2]
    cases hl : assocLookup cache (DeepL.resolveLang targetLang ++ ":" ++ text) with
    | some v => simp [DeepL.translateText, h0, h1, h2, hl]
    | none =>
      simp [DeepL.translateText, h0, h1, h2, hl, hs, assocLookup_assocSet_self]

/-- Witness for the amended C5: a succeeding backend in both variants. -/
theorem c5_witness :
    (Google.translateText (fun _ _ => .json (some ["zdravo"])) "hello" "english").2 +
      (Google.translateText (fun _ _ => .json (some ["zdravo"])) "hello" "english").2 = 2 ∧
    ((DeepL.translateText (fun _ _ => .json (some "zdravo")) [] "hello" "english").2.2 +
        (DeepL.translateText (fun _ _ => .json (some "zdravo"))
          (DeepL.translateText (fun _ _ => .json (some "zdravo")) [] "hello" "english").2.1
          "hello" "english").2.2 ≤ 1 ∧
      (DeepL.translateText (fun _ _ => .json (some "zdravo"))
          (DeepL.translateText (fun _ _ => .json (some "zdravo")) [] "hello" "english").2.1
          "hello" "english").1 =
        (DeepL.translateText (fun _ _ => .json (some "zdravo")) [] "hello" "english").1) :=
  ⟨(c5_cache_idempotent (fun _ _ => .json (some ["zdravo"]))
      (fun _ _ => .json (some "zdravo")) [] "hello" "english" "zdravo").1
      (by decide) (by decide) (by decide),
   (c5_cache_idempotent (fun _ _ => .json (some ["zdravo"]))
      (fun _ _ => .json (some "zdravo")) [] "hello" "english" "zdravo").2 rfl⟩

/-- C9: both variants resolve the backend language code through the fixed
table with keys slovenian/croatian/serbian/english; a name that is not a table
key passes through as-is in the Google variant and uppercased in the DeepL
variant, so a direct backend code may be supplied. -/
theorem c9_language_resolution (targetLang : String) :
    (Google.LANG_CODES.map Prod.fst = ["slovenian", "croatian", "serbian", "english"] ∧
     DeepL.LANG_CODES.map Prod.fst = ["slovenian", "croatian", "serbian", "english"]) ∧
    (match assocLookup Google.LANG_CODES targetLang with
     | some c => Google.resolveLang targetLang = c
     | none => Google.resolveLang targetLang = targetLang) ∧
    (match assocLookup DeepL.LANG_CODES targetLang with
     | some c => DeepL.resolveLang targetLang = c
     | none => DeepL.resolveLang targetLang = targetLang.toUpper) := by
  refine ⟨⟨rfl, rfl⟩, ?_, ?_⟩
  · cases h : assocLookup Google.LANG_CODES targetLang with
    | some c => simp [Google.resolveLang, h]
    | none => simp [Google.resolveLang, h]
  · cases h : assocLookup DeepL.LANG_CODES targetLang with
    | some c => simp [DeepL.resolveLang, h]
    | none => simp [DeepL.resolveLang, h]

/-!
## The parsed XML tree

`xml2js` hands the walker a plain JS value: `null`/`undefined`, a string, an
array, or an object with string keys in insertion order.  `JList`/`JFields`
spell out the nested lists so that mutual structural induction is available.
-/

mutual
inductive JVal where
  | null : JVal
  | str : String → JVal
  | arr : JList → JVal
  | obj : JFields → JVal
  deriving DecidableEq
inductive JList where
  | nil : JList
  | cons : JVal → JList → JList
  deriving DecidableEq
inductive JFields where
  | nil : JFields
  | cons : String → JVal → JFields → JFields
  deriving DecidableEq
end

/-- JS truthiness of a parsed value: `null`/`undefined` and the empty string
are falsy; arrays and objects are always truthy. -/
def JVal.truthy : JVal → Bool
  | .null => false
  | .str s => !s.isEmpty
  | .arr _ => true
  | .obj _ => true

/-- Property lookup `obj[key]` (own properties, insertion order). -/
def JFields.lookup : JFields → String → Option JVal
  | .nil, _ => none
  | .cons k v tl, key => if k = key then some v else tl.lookup key

/-- Property assignment `obj[key] = v`: an existing key keeps its position,
a missing key is appended. -/
def JFields.set : JFields → String → JVal → JFields
  | .nil, key, v => .cons key v .nil
  | .cons k w tl, key, v =>
    if k = key then .cons k v tl else .cons k w (tl.set key v)

/-!
Structural size that ignores string contents, so that substituting a string
leaf by another string leaf preserves size; it justifies termination of the
walkers below, which re-walk the fields updated by the text-run handler.
-/

mutual
def sizeJ : JVal → Nat
  | .null => 1
  | .str _ => 1
  | .arr xs => sizeL xs + 1
  | .obj fs => sizeF fs + 1
def sizeL : JList → Nat
  | .nil => 1
  | .cons v tl => sizeJ v + sizeL tl + 1
def sizeF : JFields → Nat
  | .nil => 1
  | .cons _ v tl => sizeJ v + sizeF tl + 1
end

/-!
## The per-fragment substitution steps

`translateAtEntry` is the body of the `a:t` loop of `translateXmlObject`;
`translateWtEntry` is the body of the `w:t` loop of `translateDocxObject`.
`tr : String → String` abstracts the Translation Client (`translateText`
composed with a backend), which always returns some string.

A `null` element inside a text-run sequence, and a wrapped element whose `_`
holds a truthy non-string, would throw in the source (`null._` /
`text._.trim` is a TypeError) and abort the part via the driver's catch;
such shapes never occur in `xml2js` output and the embedding passes them
through unchanged.
-/

/-- One `a:t` sequence element: strings with non-empty trimmed text are sent
through the client and counted; everything else is untouched. -/
def translateAtEntry (tr : String → String) : JVal → JVal × Nat
  | .str s => if jsTrim s = "" then (.str s, 0) else (.str (tr s), 1)
  | v => (v, 0)

/-- One `w:t` sequence element: a wrapped object with a truthy string under
`_` has only that inner text replaced; a bare string is replaced in place;
everything else is untouched. -/
def translateWtEntry (tr : String → String) : JVal → JVal × Nat
  | .str s => if jsTrim s = "" then (.str s, 0) else (.str (tr s), 1)
  | .obj fs =>
    match fs.lookup "_" with
    | some (.str s) =>
      if s = "" then (.obj fs, 0)
      else if jsTrim s = "" then (.obj fs, 0)
      else (.obj (fs.set "_" (.str (tr s))), 1)
    | _ => (.obj fs, 0)
  | v => (v, 0)

/-- The text-run handler loop over an `a:t` array. -/
def mapAtEntries (tr : String → String) : JList → JList × Nat
  | .nil => (.nil, 0)
  | .cons v tl =>
    let p := translateAtEntry tr v
    let q := mapAtEntries tr tl
    (.cons p.1 q.1, p.2 + q.2)

/-- The text-run handler loop over a `w:t` array. -/
def mapWtEntries (tr : String → String) : JList → JList × Nat
  | .nil => (.nil, 0)
  | .cons v tl =>
    let p := translateWtEntry tr v
    let q := mapWtEntries tr tl
    (.cons p.1 q.1, p.2 + q.2)

/-- In the source, a truthy text-run property that holds a plain string is
still indexed numerically by the handler loop: each non-whitespace character
is sent through the client and counted, while the write-back to a string
index is a silent no-op. -/
def strEntryHits (s : String) : Nat :=
  (s.toList.filter fun c => !c.isWhitespace).length

/-- The `if (obj['a:t']) { ... }` handler step on an object's fields. -/
def atStep (tr : String → String) (fs : JFields) : JFields × Nat :=
  match fs.lookup "a:t" with
  | some (.arr l) =>
    let p := mapAtEntries tr l
    (fs.set "a:t" (.arr p.1), p.2)
  | some (.str s) => if s = "" then (fs, 0) else (fs, strEntryHits s)
  | _ => (fs, 0)

/-- The `if (obj['w:t']) { ... }` handler step on an object's fields. -/
def wtStep (tr : String → String) (fs : JFields) : JFields × Nat :=
  match fs.lookup "w:t" with
  | some (.arr l) =>
    let p := mapWtEntries tr l
    (fs.set "w:t" (.arr p.1), p.2)
  | some (.str s) => if s = "" then (fs, 0) else (fs, strEntryHits s)
  | _ => (fs, 0)

theorem sizeJ_translateAtEntry (tr : String → String) (v : JVal) :
    sizeJ (translateAtEntry tr v).1 = sizeJ v := by
  cases v <;> simp [translateAtEntry, sizeJ] <;> split <;> simp [sizeJ]

theorem sizeL_mapAtEntries (tr : String → String) :
    (l : JList) → sizeL (mapAtEntries tr l).1 = sizeL l
  | .nil => by simp [mapAtEntries]
  | .cons v tl => by
    simp [mapAtEntries, sizeL, sizeJ_translateAtEntry, sizeL_mapAtEntries tr tl]

theorem sizeF_set_of_lookup (k : String) (w v : JVal) (hs : sizeJ v = sizeJ w) :
    (fs : JFields) → fs.lookup k = some w → sizeF (fs.set k v) = sizeF fs
  | .nil, hl => by simp [JFields.lookup] at hl
  | .cons k' w' tl, hl => by
    by_cases h : k' = k
    · subst h
      simp [JFields.lookup] at hl
      subst hl
      simp [JFields.set, sizeF, hs]
    · simp [JFields.lookup, h] at hl
      simp [JFields.set, h, sizeF, sizeF_set_of_lookup k w v hs tl hl]

theorem sizeJ_translateWtEntry (tr : String → String) (v : JVal) :
    sizeJ (translateWtEntry tr v).1 = sizeJ v := by
  cases v with
  | obj fs =>
    simp only [translateWtEntry]
    cases hl : fs.lookup "_" with
    | none => simp [hl, sizeJ]
    | some w =>
      cases w with
      | str s =>
        by_cases h0 : s = ""
        · simp [hl, h0, sizeJ]
        · by_cases h1 : jsTrim s = ""
          · simp [hl, h0, h1, sizeJ]
          · simp [hl, h0, h1, sizeJ,
              sizeF_set_of_lookup "_" (.str s) (.str (tr s)) (by simp [sizeJ]) fs hl]
      | null => simp [hl, sizeJ]
      | arr xs => simp [hl, sizeJ]
      | obj g => simp [hl, sizeJ]
  | null => simp [translateWtEntry, sizeJ]
  | str s => simp only [translateWtEntry, sizeJ] ; split <;> simp [sizeJ]
  | arr xs => simp [translateWtEntry, sizeJ]

theorem sizeL_mapWtEntries (tr : String → String) :
    (l : JList) → sizeL (mapWtEntries tr l).1 = sizeL l
  | .nil => by simp [mapWtEntries]
  | .cons v tl => by
    simp [mapWtEntries, sizeL, sizeJ_translateWtEntry, sizeL_mapWtEntries tr tl]

theorem sizeF_atStep (tr : String → String) (fs : JFields) :
    sizeF (atStep tr fs).1 = sizeF fs := by
  unfold atStep
  cases hl : fs.lookup "a:t" with
  | none => simp [hl]
  | some w =>
    cases w with
    | arr l =>
      exact sizeF_set_of_lookup "a:t" (.arr l) (.arr (mapAtEntries tr l).1)
        (by simp [sizeJ, sizeL_mapAtEntries]) fs hl
    | str s => by_cases h : s = "" <;> simp [h]
    | null => rfl
    | obj g => rfl

theorem sizeF_wtStep (tr : String → String) (fs : JFields) :
    sizeF (wtStep tr fs).1 = sizeF fs := by
  unfold wtStep
  cases hl : fs.lookup "w:t" with
  | none => simp [hl]
  | some w =>
    cases w with
    | arr l =>
      exact sizeF_set_of_lookup "w:t" (.arr l) (.arr (mapWtEntries tr l).1)
        (by simp [sizeJ, sizeL_mapWtEntries]) fs hl
    | str s => by_cases h : s = "" <;> simp [h]
    | null => rfl
    | obj g => rfl

/-!
## The tree walkers

`translateXmlObject` (presentation) and `translateDocxObject`
(word-processing) from the source, with the stats counter made explicit as
the second component.  The handler step runs first, then the walker recurses
into the properties of the updated object — all of them for the presentation
variant, all but `w:t` for the word-processing variant (`// Don't re-process
w:t`).  Arrays are walked element by element, left to right.
-/

mutual
def translateXmlObject (tr : String → String) (v : JVal) : JVal × Nat :=
  match v with
  | .null => (.null, 0)
  | .str s => (.str s, 0)
  | .arr xs =>
    let p := translateXmlList tr xs
    (.arr p.1, p.2)
  | .obj fs =>
    let q := atStep tr fs
    let r := translateXmlFields tr q.1
    (.obj r.1, q.2 + r.2)
termination_by sizeJ v
decreasing_by
  all_goals simp [sizeJ, sizeF_atStep]
  all_goals omega
def translateXmlList (tr : String → String) (xs : JList) : JList × Nat :=
  match xs with
  | .nil => (.nil, 0)
  | .cons v tl =>
    let p := translateXmlObject tr v
    let q := translateXmlList tr tl
    (.cons p.1 q.1, p.2 + q.2)
termination_by sizeL xs
decreasing_by
  all_goals simp [sizeL]
  all_goals omega
def translateXmlFields (tr : String → String) (fs : JFields) : JFields × Nat :=
  match fs with
  | .nil => (.nil, 0)
  | .cons k v tl =>
    let p := translateXmlObject tr v
    let q := translateXmlFields tr tl
    (.cons k p.1 q.1, p.2 + q.2)
termination_by sizeF fs
decreasing_by
  all_goals simp [sizeF]
  all_goals omega
end

mutual
def translateDocxObject (tr : String → String) (v : JVal) : JVal × Nat :=
  match v with
  | .null => (.null, 0)
  | .str s => (.str s, 0)
  | .arr xs =>
    let p := translateDocxList tr xs
    (.arr p.1, p.2)
  | .obj fs =>
    let q := wtStep tr fs
    let r := translateDocxFields tr q.1
    (.obj r.1, q.2 + r.2)
termination_by sizeJ v
decreasing_by
  all_goals simp [sizeJ, sizeF_wtStep]
  all_goals omega
def translateDocxList (tr : String → String) (xs : JList) : JList × Nat :=
  match xs with
  | .nil => (.nil, 0)
  | .cons v tl =>
    let p := translateDocxObject tr v
    let q := translateDocxList tr tl
    (.cons p.1 q.1, p.2 + q.2)
termination_by sizeL xs
decreasing_by
  all_goals simp [sizeL]
  all_goals omega
def translateDocxFields (tr : String → String) (fs : JFields) : JFields × Nat :=
  match fs with
  | .nil => (.nil, 0)
  | .cons k v tl =>
    let p := if k = "w:t" then (v, 0) else translateDocxObject tr v
    let q := translateDocxFields tr tl
    (.cons k p.1 q.1, p.2 + q.2)
termination_by sizeF fs
decreasing_by
  all_goals simp [sizeF]
  all_goals omega
end

theorem JFields.lookup_set_ne (key : String) (v : JVal) (k : String) (hk : k ≠ key) :
    (fs : JFields) → (fs.set key v).lookup k = fs.lookup k
  | .nil => by
    have h' : key ≠ k := Ne.symm hk
    simp [JFields.set, JFields.lookup, h']
  | .cons k' w tl => by
    by_cases h : k' = key
    · subst h
      have : ¬ k' = k := fun h' => hk (h'.symm)
      simp [JFields.set, JFields.lookup, this]
    · simp only [JFields.set, h, if_false]
      by_cases h' : k' = k
      · simp [JFields.lookup, h']
      · simp [JFields.lookup, h', JFields.lookup_set_ne key v k hk tl]

/-- C2: substituting a word-processing text-run entry preserves the fragment's
wrapping form: a wrapped object (text under the designated inner key `_`)
stays a wrapped object in which only `_` is replaced by the client's result —
every other property keeps its value — and a bare string entry yields a bare
string result. -/
theorem c2_shape_preservation (tr : String → String) (fs : JFields)
    (s sb : String) (hw : fs.lookup "_" = some (.str s)) (hs : jsTrim s ≠ "")
    (hb : jsTrim sb ≠ "") :
    translateWtEntry tr (.obj fs) = (.obj (fs.set "_" (.str (tr s))), 1) ∧
    (∀ k, k ≠ "_" → (fs.set "_" (.str (tr s))).lookup k = fs.lookup k) ∧
    translateWtEntry tr (.str sb) = (.str (tr sb), 1) := by
  refine ⟨?_, fun k hk => JFields.lookup_set_ne "_" (.str (tr s)) k hk fs, ?_⟩
  · have h0 : s ≠ "" := by
      intro h
      apply hs
      rw [h]
      rfl
    simp [translateWtEntry, hw, h0, hs]
  · simp [translateWtEntry, hb]

/-- Witness for C2 on the wrapped fragment
`{ "$": {}, "_": "Hello" }` and the bare fragment `"World"`. -/
theorem c2_witness :
    translateWtEntry (fun s => s ++ "!")
        (.obj (.cons "$" (.obj .nil) (.cons "_" (.str "Hello") .nil))) =
      (.obj ((JFields.cons "$" (.obj .nil) (.cons "_" (.str "Hello") .nil)).set "_"
        (.str ((fun s => s ++ "!") "Hello"))), 1) ∧
    (∀ k, k ≠ "_" →
      ((JFields.cons "$" (.obj .nil) (.cons "_" (.str "Hello") .nil)).set "_"
          (.str ((fun s => s ++ "!") "Hello"))).lookup k =
        (JFields.cons "$" (.obj .nil) (.cons "_" (.str "Hello") .nil)).lookup k) ∧
    translateWtEntry (fun s => s ++ "!") (.str "World") =
      (.str ((fun s => s ++ "!") "World"), 1) :=
  c2_shape_preservation (fun s => s ++ "!")
    (.cons "$" (.obj .nil) (.cons "_" (.str "Hello") .nil)) "Hello" "World"
    rfl (by decide) (by decide)

/-- C10: a word-processing text-run entry that is an object whose designated
inner key `_` is absent or holds a falsy value (empty string or null) is left
entirely untouched and contributes nothing to the translated counter. -/
theorem c10_falsy_inner_key (tr : String → String) (fs : JFields)
    (h : ∀ v, fs.lookup "_" = some v → v.truthy = false) :
    translateWtEntry tr (.obj fs) = (.obj fs, 0) := by
  cases hl : fs.lookup "_" with
  | none => simp [translateWtEntry, hl]
  | some w =>
    have hw := h w hl
    cases w with
    | str s =>
      have hse : s = "" := by
        simpa [JVal.truthy, String.isEmpty_iff] using hw
      simp [translateWtEntry, hl, hse]
    | null => simp [translateWtEntry, hl]
    | arr xs => simp [JVal.truthy] at hw
    | obj g => simp [JVal.truthy] at hw

/-- Witness for C10 on `{ "_": "", "other": "x" }`. -/
theorem c10_witness :
    translateWtEntry (fun s => s ++ "!")
        (.obj (.cons "_" (.str "") (.cons "other" (.str "x") .nil))) =
      (.obj (.cons "_" (.str "") (.cons "other" (.str "x") .nil)), 0) :=
  c10_falsy_inner_key (fun s => s ++ "!")
    (.cons "_" (.str "") (.cons "other" (.str "x") .nil))
    (fun v hv => by
      simp [JFields.lookup] at hv
      rw [← hv]
      rfl)

/-!
## Spec-side locator, substitution and fragment count

The following definitions are written from the spec's wording (§4.2, §4.3),
not from the source: a text-bearing node exposes the designated text-run
property holding an ordered sequence; every entry of that sequence is a
candidate fragment (for word-processing either a bare string or a wrapped
object exposing its text under `_`); a fragment whose trimmed text is empty
is skipped; substitution replaces each qualifying fragment exactly once,
in order; recursion reaches every other property, excluding the text-run
property itself for the word-processing variant only.  The walkers are then
proved equal to this one-pass substitution together with the fragment count.
-/

/-- Spec-side: qualifying fragments of a presentation text-run sequence. -/
def specAtFrags : JList → List String
  | .nil => []
  | .cons (.str s) tl =>
    (if jsTrim s = "" then [] else [s]) ++ specAtFrags tl
  | .cons _ tl => specAtFrags tl

/-- Spec-side: one-pass substitution over a presentation text-run sequence. -/
def specAtSubst (tr : String → String) : JList → JList
  | .nil => .nil
  | .cons (.str s) tl =>
    .cons (if jsTrim s = "" then .str s else .str (tr s)) (specAtSubst tr tl)
  | .cons v tl => .cons v (specAtSubst tr tl)

/-- Spec-side: qualifying fragments of a word-processing text-run sequence:
bare strings, and wrapped objects exposing a string under `_`. -/
def specWtFrags : JList → List String
  | .nil => []
  | .cons (.str s) tl =>
    (if jsTrim s = "" then [] else [s]) ++ specWtFrags tl
  | .cons (.obj g) tl =>
    (match g.lookup "_" with
     | some (.str s) => if jsTrim s = "" then [] else [s]
     | _ => []) ++ specWtFrags tl
  | .cons _ tl => specWtFrags tl

/-- Spec-side: one-pass substitution over a word-processing text-run
sequence, keeping wrapped forms wrapped and bare forms bare. -/
def specWtSubst (tr : String → String) : JList → JList
  | .nil => .nil
  | .cons (.str s) tl =>
    .cons (if jsTrim s = "" then .str s else .str (tr s)) (specWtSubst tr tl)
  | .cons (.obj g) tl =>
    .cons
      (match g.lookup "_" with
       | some (.str s) =>
         if jsTrim s = "" then .obj g else .obj (g.set "_" (.str (tr s)))
       | _ => .obj g)
      (specWtSubst tr tl)
  | .cons v tl => .cons v (specWtSubst tr tl)

theorem sizeL_specAtSubst (tr : String → String) :
    (l : JList) → sizeL (specAtSubst tr l) = sizeL l
  | .nil => by simp [specAtSubst]
  | .cons (.str s) tl => by
    by_cases h : jsTrim s = "" <;>
      simp [specAtSubst, h, sizeL, sizeJ, sizeL_specAtSubst tr tl]
  | .cons .null tl => by simp [specAtSubst, sizeL, sizeL_specAtSubst tr tl]
  | .cons (.arr xs) tl => by simp [specAtSubst, sizeL, sizeL_specAtSubst tr tl]
  | .cons (.obj g) tl => by simp [specAtSubst, sizeL, sizeL_specAtSubst tr tl]

theorem sizeL_specWtSubst (tr : String → String) :
    (l : JList) → sizeL (specWtSubst tr l) = sizeL l
  | .nil => by simp [specWtSubst]
  | .cons (.str s) tl => by
    by_cases h : jsTrim s = "" <;>
      simp [specWtSubst, h, sizeL, sizeJ, sizeL_specWtSubst tr tl]
  | .cons .null tl => by simp [specWtSubst, sizeL, sizeL_specWtSubst tr tl]
  | .cons (.arr xs) tl => by simp [specWtSubst, sizeL, sizeL_specWtSubst tr tl]
  | .cons (.obj g) tl => by
    cases hl : g.lookup "_" with
    | none => simp [specWtSubst, hl, sizeL, sizeL_specWtSubst tr tl]
    | some w =>
      cases w with
      | str s =>
        by_cases h : jsTrim s = ""
        · simp [specWtSubst, hl, h, sizeL, sizeL_specWtSubst tr tl]
        · simp [specWtSubst, hl, h, sizeL, sizeJ, sizeL_specWtSubst tr tl,
            sizeF_set_of_lookup "_" (.str s) (.str (tr s)) (by simp [sizeJ]) g hl]
      | null => simp [specWtSubst, hl, sizeL, sizeL_specWtSubst tr tl]
      | arr ys => simp [specWtSubst, hl, sizeL, sizeL_specWtSubst tr tl]
      | obj g2 => simp [specWtSubst, hl, sizeL, sizeL_specWtSubst tr tl]

/-- Spec-side handler on an object's fields, presentation: substitute the
text-run sequence if the node is text-bearing. -/
def atSubstFields (tr : String → String) (fs : JFields) : JFields :=
  match fs.lookup "a:t" with
  | some (.arr l) => fs.set "a:t" (.arr (specAtSubst tr l))
  | _ => fs

/-- Spec-side handler on an object's fields, word-processing. -/
def wtSubstFields (tr : String → String) (fs : JFields) : JFields :=
  match fs.lookup "w:t" with
  | some (.arr l) => fs.set "w:t" (.arr (specWtSubst tr l))
  | _ => fs

theorem sizeF_atSubstFields (tr : String → String) (fs : JFields) :
    sizeF (atSubstFields tr fs) = sizeF fs := by
  unfold atSubstFields
  cases hl : fs.lookup "a:t" with
  | none => rfl
  | some w =>
    cases w with
    | arr l =>
      exact sizeF_set_of_lookup "a:t" (.arr l) (.arr (specAtSubst tr l))
        (by simp [sizeJ, sizeL_specAtSubst]) fs hl
    | str s => rfl
    | null => rfl
    | obj g => rfl

theorem sizeF_wtSubstFields (tr : String → String) (fs : JFields) :
    sizeF (wtSubstFields tr fs) = sizeF fs := by
  unfold wtSubstFields
  cases hl : fs.lookup "w:t" with
  | none => rfl
  | some w =>
    cases w with
    | arr l =>
      exact sizeF_set_of_lookup "w:t" (.arr l) (.arr (specWtSubst tr l))
        (by simp [sizeJ, sizeL_specWtSubst]) fs hl
    | str s => rfl
    | null => rfl
    | obj g => rfl

mutual
/-- Spec-side one-pass substitution, presentation variant: substitute the
fragments of a text-bearing node, then recurse into every property. -/
def specSubstPptx (tr : String → String) (v : JVal) : JVal :=
  match v with
  | .null => .null
  | .str s => .str s
  | .arr xs => .arr (specSubstPptxList tr xs)
  | .obj fs => .obj (specSubstPptxFields tr (atSubstFields tr fs))
termination_by sizeJ v
decreasing_by
  all_goals simp [sizeJ, sizeF_atSubstFields]
  all_goals omega
def specSubstPptxList (tr : String → String) (xs : JList) : JList :=
  match xs with
  | .nil => .nil
  | .cons v tl => .cons (specSubstPptx tr v) (specSubstPptxList tr tl)
termination_by sizeL xs
decreasing_by
  all_goals simp [sizeL]
  all_goals omega
def specSubstPptxFields (tr : String → String) (fs : JFields) : JFields :=
  match fs with
  | .nil => .nil
  | .cons k v tl =>
    .cons k (specSubstPptx tr v) (specSubstPptxFields tr tl)
termination_by sizeF fs
decreasing_by
  all_goals simp [sizeF]
  all_goals omega
end

mutual
/-- Spec-side one-pass substitution, word-processing variant: substitute the
fragments of a text-bearing node, then recurse into every property other than
the text-run property itself. -/
def specSubstDocx (tr : String → String) (v : JVal) : JVal :=
  match v with
  | .null => .null
  | .str s => .str s
  | .arr xs => .arr (specSubstDocxList tr xs)
  | .obj fs => .obj (specSubstDocxFields tr (wtSubstFields tr fs))
termination_by sizeJ v
decreasing_by
  all_goals simp [sizeJ, sizeF_wtSubstFields]
  all_goals omega
def specSubstDocxList (tr : String → String) (xs : JList) : JList :=
  match xs with
  | .nil => .nil
  | .cons v tl => .cons (specSubstDocx tr v) (specSubstDocxList tr tl)
termination_by sizeL xs
decreasing_by
  all_goals simp [sizeL]
  all_goals omega
def specSubstDocxFields (tr : String → String) (fs : JFields) : JFields :=
  match fs with
  | .nil => .nil
  | .cons k v tl =>
    .cons k (if k = "w:t" then v else specSubstDocx tr v) (specSubstDocxFields tr tl)
termination_by sizeF fs
decreasing_by
  all_goals simp [sizeF]
  all_goals omega
end

mutual
/-- Spec-side qualifying-fragment texts of a presentation tree, in document
order. -/
def specFragsPptx : JVal → List String
  | .null => []
  | .str _ => []
  | .arr xs => specFragsPptxList xs
  | .obj fs =>
    (match fs.lookup "a:t" with
     | some (.arr l) => specAtFrags l
     | _ => []) ++ specFragsPptxFields fs
def specFragsPptxList : JList → List String
  | .nil => []
  | .cons v tl => specFragsPptx v ++ specFragsPptxList tl
def specFragsPptxFields : JFields → List String
  | .nil => []
  | .cons _ v tl => specFragsPptx v ++ specFragsPptxFields tl
end

mutual
/-- Spec-side qualifying-fragment texts of a word-processing tree, in
document order; recursion does not re-enter the text-run property. -/
def specFragsDocx : JVal → List String
  | .null => []
  | .str _ => []
  | .arr xs => specFragsDocxList xs
  | .obj fs =>
    (match fs.lookup "w:t" with
     | some (.arr l) => specWtFrags l
     | _ => []) ++ specFragsDocxFields fs
def specFragsDocxList : JList → List String
  | .nil => []
  | .cons v tl => specFragsDocx v ++ specFragsDocxList tl
def specFragsDocxFields : JFields → List String
  | .nil => []
  | .cons k v tl =>
    (if k = "w:t" then [] else specFragsDocx v) ++ specFragsDocxFields tl
end

/-!
## Well-formedness

`xml2js` always materialises child elements as arrays, so a truthy text-run
property always holds an array in parser output.  `wfPptx`/`wfDocx` record
exactly this: nowhere in the tree does `a:t` (resp. `w:t`) hold a non-empty
string.  On such a string the source's handler loop would index the string
character by character (counting each non-whitespace character while the
write-back is a no-op), which is the one point where the counter deviates
from the fragment count.
-/

mutual
def wfPptx : JVal → Bool
  | .null => true
  | .str _ => true
  | .arr xs => wfPptxList xs
  | .obj fs =>
    (match fs.lookup "a:t" with
     | some (.str s) => s == ""
     | _ => true) && wfPptxFields fs
def wfPptxList : JList → Bool
  | .nil => true
  | .cons v tl => wfPptx v && wfPptxList tl
def wfPptxFields : JFields → Bool
  | .nil => true
  | .cons _ v tl => wfPptx v && wfPptxFields tl
end

mutual
def wfDocx : JVal → Bool
  | .null => true
  | .str _ => true
  | .arr xs => wfDocxList xs
  | .obj fs =>
    (match fs.lookup "w:t" with
     | some (.str s) => s == ""
     | _ => true) && wfDocxFields fs
def wfDocxList : JList → Bool
  | .nil => true
  | .cons v tl => wfDocx v && wfDocxList tl
def wfDocxFields : JFields → Bool
  | .nil => true
  | .cons _ v tl => wfDocx v && wfDocxFields tl
end

/-!
## The walkers implement the spec-side one-pass substitution
-/

theorem mapAtEntries_fst (tr : String → String) :
    (l : JList) → (mapAtEntries tr l).1 = specAtSubst tr l
  | .nil => by simp [mapAtEntries, specAtSubst]
  | .cons v tl => by
    cases v with
    | str s =>
      by_cases h : jsTrim s = "" <;>
        simp [mapAtEntries, translateAtEntry, specAtSubst, h, mapAtEntries_fst tr tl]
    | null => simp [mapAtEntries, translateAtEntry, specAtSubst, mapAtEntries_fst tr tl]
    | arr xs => simp [mapAtEntries, translateAtEntry, specAtSubst, mapAtEntries_fst tr tl]
    | obj g => simp [mapAtEntries, translateAtEntry, specAtSubst, mapAtEntries_fst tr tl]

theorem mapWtEntries_fst (tr : String → String) :
    (l : JList) → (mapWtEntries tr l).1 = specWtSubst tr l
  | .nil => by simp [mapWtEntries, specWtSubst]
  | .cons v tl => by
    cases v with
    | str s =>
      by_cases h : jsTrim s = "" <;>
        simp [mapWtEntries, translateWtEntry, specWtSubst, h, mapWtEntries_fst tr tl]
    | null => simp [mapWtEntries, translateWtEntry, specWtSubst, mapWtEntries_fst tr tl]
    | arr xs => simp [mapWtEntries, translateWtEntry, specWtSubst, mapWtEntries_fst tr tl]
    | obj g =>
      cases hl : g.lookup "_" with
      | none =>
        simp [mapWtEntries, translateWtEntry, specWtSubst, hl, mapWtEntries_fst tr tl]
      | some w =>
        cases w with
        | str s =>
          by_cases h0 : s = ""
          · have h1 : jsTrim s = "" := by rw [h0]; rfl
            simp [mapWtEntries, translateWtEntry, specWtSubst, hl, h0, h1,
              jsTrim_empty, mapWtEntries_fst tr tl]
          · by_cases h1 : jsTrim s = "" <;>
              simp [mapWtEntries, translateWtEntry, specWtSubst, hl, h0, h1,
                mapWtEntries_fst tr tl]
        | null =>
          simp [mapWtEntries, translateWtEntry, specWtSubst, hl, mapWtEntries_fst tr tl]
        | arr ys =>
          simp [mapWtEntries, translateWtEntry, specWtSubst, hl, mapWtEntries_fst tr tl]
        | obj g2 =>
          simp [mapWtEntries, translateWtEntry, specWtSubst, hl, mapWtEntries_fst tr tl]

theorem atStep_fst (tr : String → String) (fs : JFields) :
    (atStep tr fs).1 = atSubstFields tr fs := by
  unfold atStep atSubstFields
  cases hl : fs.lookup "a:t" with
  | none => rfl
  | some w =>
    cases w with
    | arr l => simp [mapAtEntries_fst]
    | str s => by_cases h : s = "" <;> simp [h]
    | null => rfl
    | obj g => rfl

theorem wtStep_fst (tr : String → String) (fs : JFields) :
    (wtStep tr fs).1 = wtSubstFields tr fs := by
  unfold wtStep wtSubstFields
  cases hl : fs.lookup "w:t" with
  | none => rfl
  | some w =>
    cases w with
    | arr l => simp [mapWtEntries_fst]
    | str s => by_cases h : s = "" <;> simp [h]
    | null => rfl
    | obj g => rfl

mutual
theorem translateXmlObject_fst (tr : String → String) :
    (v : JVal) → (translateXmlObject tr v).1 = specSubstPptx tr v
  | .null => by simp [translateXmlObject, specSubstPptx]
  | .str s => by simp [translateXmlObject, specSubstPptx]
  | .arr xs => by
    simp [translateXmlObject, specSubstPptx, translateXmlList_fst tr xs]
  | .obj fs => by
    simp [translateXmlObject, specSubstPptx, atStep_fst,
      translateXmlFields_fst tr (atSubstFields tr fs)]
termination_by v => sizeJ v
decreasing_by
  all_goals simp [sizeJ, sizeF_atSubstFields]
  all_goals omega
theorem translateXmlList_fst (tr : String → String) :
    (xs : JList) → (translateXmlList tr xs).1 = specSubstPptxList tr xs
  | .nil => by simp [translateXmlList, specSubstPptxList]
  | .cons v tl => by
    simp [translateXmlList, specSubstPptxList, translateXmlObject_fst tr v,
      translateXmlList_fst tr tl]
termination_by xs => sizeL xs
decreasing_by
  all_goals simp [sizeL]
  all_goals omega
theorem translateXmlFields_fst (tr : String → String) :
    (fs : JFields) → (translateXmlFields tr fs).1 = specSubstPptxFields tr fs
  | .nil => by simp [translateXmlFields, specSubstPptxFields]
  | .cons k v tl => by
    simp [translateXmlFields, specSubstPptxFields, translateXmlObject_fst tr v,
      translateXmlFields_fst tr tl]
termination_by fs => sizeF fs
decreasing_by
  all_goals simp [sizeF]
  all_goals omega
end

mutual
theorem translateDocxObject_fst (tr : String → String) :
    (v : JVal) → (translateDocxObject tr v).1 = specSubstDocx tr v
  | .null => by simp [translateDocxObject, specSubstDocx]
  | .str s => by simp [translateDocxObject, specSubstDocx]
  | .arr xs => by
    simp [translateDocxObject, specSubstDocx, translateDocxList_fst tr xs]
  | .obj fs => by
    simp [translateDocxObject, specSubstDocx, wtStep_fst,
      translateDocxFields_fst tr (wtSubstFields tr fs)]
termination_by v => sizeJ v
decreasing_by
  all_goals simp [sizeJ, sizeF_wtSubstFields]
  all_goals omega
theorem translateDocxList_fst (tr : String → String) :
    (xs : JList) → (translateDocxList tr xs).1 = specSubstDocxList tr xs
  | .nil => by simp [translateDocxList, specSubstDocxList]
  | .cons v tl => by
    simp [translateDocxList, specSubstDocxList, translateDocxObject_fst tr v,
      translateDocxList_fst tr tl]
termination_by xs => sizeL xs
decreasing_by
  all_goals simp [sizeL]
  all_goals omega
theorem translateDocxFields_fst (tr : String → String) :
    (fs : JFields) → (translateDocxFields tr fs).1 = specSubstDocxFields tr fs
  | .nil => by simp [translateDocxFields, specSubstDocxFields]
  | .cons k v tl => by
    by_cases h : k = "w:t"
    · simp [translateDocxFields, specSubstDocxFields, h, translateDocxFields_fst tr tl]
    · simp [translateDocxFields, specSubstDocxFields, h, translateDocxObject_fst tr v,
        translateDocxFields_fst tr tl]
termination_by fs => sizeF fs
decreasing_by
  all_goals simp [sizeF]
  all_goals omega
end

/-!
## The translated counter equals the qualifying-fragment count
-/

theorem mapAtEntries_snd (tr : String → String) :
    (l : JList) → (mapAtEntries tr l).2 = (specAtFrags l).length
  | .nil => by simp [mapAtEntries, specAtFrags]
  | .cons v tl => by
    cases v with
    | str s =>
      by_cases h : jsTrim s = "" <;>
        simp [mapAtEntries, translateAtEntry, specAtFrags, h,
          mapAtEntries_snd tr tl, Nat.add_comm]
    | null => simp [mapAtEntries, translateAtEntry, specAtFrags, mapAtEntries_snd tr tl]
    | arr xs => simp [mapAtEntries, translateAtEntry, specAtFrags, mapAtEntries_snd tr tl]
    | obj g => simp [mapAtEntries, translateAtEntry, specAtFrags, mapAtEntries_snd tr tl]

theorem mapWtEntries_snd (tr : String → String) :
    (l : JList) → (mapWtEntries tr l).2 = (specWtFrags l).length
  | .nil => by simp [mapWtEntries, specWtFrags]
  | .cons v tl => by
    cases v with
    | str s =>
      by_cases h : jsTrim s = "" <;>
        simp [mapWtEntries, translateWtEntry, specWtFrags, h,
          mapWtEntries_snd tr tl, Nat.add_comm]
    | null => simp [mapWtEntries, translateWtEntry, specWtFrags, mapWtEntries_snd tr tl]
    | arr xs => simp [mapWtEntries, translateWtEntry, specWtFrags, mapWtEntries_snd tr tl]
    | obj g =>
      cases hl : g.lookup "_" with
      | none =>
        simp [mapWtEntries, translateWtEntry, specWtFrags, hl, mapWtEntries_snd tr tl]
      | some w =>
        cases w with
        | str s =>
          by_cases h0 : s = ""
          · have h1 : jsTrim s = "" := by rw [h0]; rfl
            simp [mapWtEntries, translateWtEntry, specWtFrags, hl, h0, h1,
              jsTrim_empty, mapWtEntries_snd tr tl]
          · by_cases h1 : jsTrim s = "" <;>
              simp [mapWtEntries, translateWtEntry, specWtFrags, hl, h0, h1,
                mapWtEntries_snd tr tl, Nat.add_comm]
        | null =>
          simp [mapWtEntries, translateWtEntry, specWtFrags, hl, mapWtEntries_snd tr tl]
        | arr ys =>
          simp [mapWtEntries, translateWtEntry, specWtFrags, hl, mapWtEntries_snd tr tl]
        | obj g2 =>
          simp [mapWtEntries, translateWtEntry, specWtFrags, hl, mapWtEntries_snd tr tl]

/-- Walking an `a:t` entry after the handler substituted it yields the same
count as walking the original entry (the handler turns strings into strings,
which the walker counts as 0 either way). -/
theorem translateXmlObject_snd_atEntry (tr tr2 : String → String) (v : JVal) :
    (translateXmlObject tr (translateAtEntry tr2 v).1).2 =
      (translateXmlObject tr v).2 := by
  cases v with
  | str s =>
    by_cases h : jsTrim s = "" <;> simp [translateAtEntry, h, translateXmlObject]
  | null => rfl
  | arr xs => rfl
  | obj g => rfl

theorem translateXmlList_snd_mapAt (tr tr2 : String → String) :
    (l : JList) → (translateXmlList tr ((mapAtEntries tr2 l).1)).2 =
      (translateXmlList tr l).2
  | .nil => by simp [mapAtEntries]
  | .cons v tl => by
    simp only [mapAtEntries]
    simp only [translateXmlList]
    rw [translateXmlObject_snd_atEntry tr tr2 v, translateXmlList_snd_mapAt tr tr2 tl]

theorem translateXmlFields_snd_set (tr tr2 : String → String) (l : JList) :
    (fs : JFields) → fs.lookup "a:t" = some (.arr l) →
      (translateXmlFields tr (fs.set "a:t" (.arr (mapAtEntries tr2 l).1))).2 =
        (translateXmlFields tr fs).2
  | .nil, hl => by simp [JFields.lookup] at hl
  | .cons k v tl, hl => by
    by_cases h : k = "a:t"
    · subst h
      simp [JFields.lookup] at hl
      subst hl
      simp [JFields.set, translateXmlFields, translateXmlObject,
        translateXmlList_snd_mapAt tr tr2 l]
    · simp only [JFields.lookup, if_neg h] at hl
      simp only [JFields.set, if_neg h]
      simp only [translateXmlFields]
      rw [translateXmlFields_snd_set tr tr2 l tl hl]

theorem translateXmlFields_snd_atStep (tr : String → String) (fs : JFields) :
    (translateXmlFields tr (atStep tr fs).1).2 = (translateXmlFields tr fs).2 := by
  unfold atStep
  cases hl : fs.lookup "a:t" with
  | none => rfl
  | some w =>
    cases w with
    | arr l => exact translateXmlFields_snd_set tr tr l fs hl
    | str s => by_cases h : s = "" <;> simp [h]
    | null => rfl
    | obj g => rfl

/-- The docx walker's recursion skips every `w:t` property, so replacing the
(first) `w:t` value leaves the recursion's count unchanged. -/
theorem translateDocxFields_snd_set (tr : String → String) (x : JVal) :
    (fs : JFields) → (translateDocxFields tr (fs.set "w:t" x)).2 =
      (translateDocxFields tr fs).2
  | .nil => by simp [JFields.set, translateDocxFields]
  | .cons k v tl => by
    by_cases h : k = "w:t"
    · subst h
      simp only [JFields.set, if_pos rfl]
      simp [translateDocxFields]
    · simp only [JFields.set, if_neg h]
      simp only [translateDocxFields]
      rw [translateDocxFields_snd_set tr x tl]

theorem translateDocxFields_snd_wtStep (tr : String → String) (fs : JFields) :
    (translateDocxFields tr (wtStep tr fs).1).2 = (translateDocxFields tr fs).2 := by
  unfold wtStep
  cases hl : fs.lookup "w:t" with
  | none => rfl
  | some w =>
    cases w with
    | arr l => exact translateDocxFields_snd_set tr (.arr (mapWtEntries tr l).1) fs
    | str s => by_cases h : s = "" <;> simp [h]
    | null => rfl
    | obj g => rfl

mutual
theorem translateXmlObject_snd (tr : String → String) :
    (v : JVal) → wfPptx v = true →
      (translateXmlObject tr v).2 = (specFragsPptx v).length
  | .null, _ => by simp [translateXmlObject, specFragsPptx]
  | .str s, _ => by simp [translateXmlObject, specFragsPptx]
  | .arr xs, hw => by
    have h : wfPptxList xs = true := by simpa [wfPptx] using hw
    simp [translateXmlObject, specFragsPptx, translateXmlList_snd tr xs h]
  | .obj fs, hw => by
    have hw' : (match fs.lookup "a:t" with
        | some (.str s) => s == ""
        | _ => true) = true ∧ wfPptxFields fs = true := by
      simpa [wfPptx, Bool.and_eq_true] using hw
    simp only [translateXmlObject]
    rw [translateXmlFields_snd_atStep tr fs, translateXmlFields_snd tr fs hw'.2]
    cases hl : fs.lookup "a:t" with
    | none => simp [atStep, hl, specFragsPptx]
    | some w =>
      cases w with
      | arr l => simp [atStep, hl, specFragsPptx, mapAtEntries_snd tr l]
      | str s =>
        have hs : s = "" := by
          have h1 := hw'.1
          rw [hl] at h1
          simpa using h1
        simp [atStep, hl, hs, specFragsPptx]
      | null => simp [atStep, hl, specFragsPptx]
      | obj g => simp [atStep, hl, specFragsPptx]
termination_by v _ => sizeJ v
decreasing_by
  all_goals simp [sizeJ]
  all_goals omega
theorem translateXmlList_snd (tr : String → String) :
    (xs : JList) → wfPptxList xs = true →
      (translateXmlList tr xs).2 = (specFragsPptxList xs).length
  | .nil, _ => by simp [translateXmlList, specFragsPptxList]
  | .cons v tl, hw => by
    have h : wfPptx v = true ∧ wfPptxList tl = true := by
      simpa [wfPptxList, Bool.and_eq_true] using hw
    simp [translateXmlList, specFragsPptxList, translateXmlObject_snd tr v h.1,
      translateXmlList_snd tr tl h.2]
termination_by xs _ => sizeL xs
decreasing_by
  all_goals simp [sizeL]
  all_goals omega
theorem translateXmlFields_snd (tr : String → String) :
    (fs : JFields) → wfPptxFields fs = true →
      (translateXmlFields tr fs).2 = (specFragsPptxFields fs).length
  | .nil, _ => by simp [translateXmlFields, specFragsPptxFields]
  | .cons k v tl, hw => by
    have h : wfPptx v = true ∧ wfPptxFields tl = true := by
      simpa [wfPptxFields, Bool.and_eq_true] using hw
    simp [translateXmlFields, specFragsPptxFields, translateXmlObject_snd tr v h.1,
      translateXmlFields_snd tr tl h.2]
termination_by fs _ => sizeF fs
decreasing_by
  all_goals simp [sizeF]
  all_goals omega
end

mutual
theorem translateDocxObject_snd (tr : String → String) :
    (v : JVal) → wfDocx v = true →
      (translateDocxObject tr v).2 = (specFragsDocx v).length
  | .null, _ => by simp [translateDocxObject, specFragsDocx]
  | .str s, _ => by simp [translateDocxObject, specFragsDocx]
  | .arr xs, hw => by
    have h : wfDocxList xs = true := by simpa [wfDocx] using hw
    simp [translateDocxObject, specFragsDocx, translateDocxList_snd tr xs h]
  | .obj fs, hw => by
    have hw' : (match fs.lookup "w:t" with
        | some (.str s) => s == ""
        | _ => true) = true ∧ wfDocxFields fs = true := by
      simpa [wfDocx, Bool.and_eq_true] using hw
    simp only [translateDocxObject]
    rw [translateDocxFields_snd_wtStep tr fs, translateDocxFields_snd tr fs hw'.2]
    cases hl : fs.lookup "w:t" with
    | none => simp [wtStep, hl, specFragsDocx]
    | some w =>
      cases w with
      | arr l => simp [wtStep, hl, specFragsDocx, mapWtEntries_snd tr l]
      | str s =>
        have hs : s = "" := by
          have h1 := hw'.1
          rw [hl] at h1
          simpa using h1
        simp [wtStep, hl, hs, specFragsDocx]
      | null => simp [wtStep, hl, specFragsDocx]
      | obj g => simp [wtStep, hl, specFragsDocx]
termination_by v _ => sizeJ v
decreasing_by
  all_goals simp [sizeJ]
  all_goals omega
theorem translateDocxList_snd (tr : String → String) :
    (xs : JList) → wfDocxList xs = true →
      (translateDocxList tr xs).2 = (specFragsDocxList xs).length
  | .nil, _ => by simp [translateDocxList, specFragsDocxList]
  | .cons v tl, hw => by
    have h : wfDocx v = true ∧ wfDocxList tl = true := by
      simpa [wfDocxList, Bool.and_eq_true] using hw
    simp [translateDocxList, specFragsDocxList, translateDocxObject_snd tr v h.1,
      translateDocxList_snd tr tl h.2]
termination_by xs _ => sizeL xs
decreasing_by
  all_goals simp [sizeL]
  all_goals omega
theorem translateDocxFields_snd (tr : String → String) :
    (fs : JFields) → wfDocxFields fs = true →
      (translateDocxFields tr fs).2 = (specFragsDocxFields fs).length
  | .nil, _ => by simp [translateDocxFields, specFragsDocxFields]
  | .cons k v tl, hw => by
    have h : wfDocx v = true ∧ wfDocxFields tl = true := by
      simpa [wfDocxFields, Bool.and_eq_true] using hw
    by_cases hk : k = "w:t"
    · simp [translateDocxFields, specFragsDocxFields, hk,
        translateDocxFields_snd tr tl h.2]
    · simp [translateDocxFields, specFragsDocxFields, hk,
        translateDocxObject_snd tr v h.1, translateDocxFields_snd tr tl h.2]
termination_by fs _ => sizeF fs
decreasing_by
  all_goals simp [sizeF]
  all_goals omega
end

/-- C7: each walker is exactly the spec-side one-pass substitution: every
qualifying text fragment — at arbitrary depth, including inside arrays of
arrays — has the Translation Client applied to it exactly once (never twice,
which would yield a doubly-translated value), and the word-processing
recursion excludes the already-handled `w:t` property. -/
theorem c7_traversal_complete (tr : String → String) (v : JVal) :
    (translateXmlObject tr v).1 = specSubstPptx tr v ∧
    (translateDocxObject tr v).1 = specSubstDocx tr v :=
  ⟨translateXmlObject_fst tr v, translateDocxObject_fst tr v⟩

/-!
## The archive transform driver

A Package is modelled as its ordered list of entries, each a name plus its
byte content decoded as UTF-8 (the source works on
`entry.getData().toString('utf8')`).  `parse` models
`parser.parseStringPromise` (`none` = the parser throws, which the driver
catches), `build` models `builder.buildObject`, and `tr` the Translation
Client.  `stats.total` is declared but never incremented, exactly as in the
source.
-/

/-- The alternation of the slide-part regex
`/ppt\/(slides|slideMasters|slideLayouts|notesSlides)\/.*\.xml$/`. -/
def pptxDirs : List String := ["slides", "slideMasters", "slideLayouts", "notesSlides"]

/-- JS regex `.` without the dotAll flag: any character except a line
terminator. -/
def dotChar (c : Char) : Bool := c ≠ '\n' && c ≠ '\r'

/-- Does the tail of an entry name, from some position to its end, match
`ppt\/(slides|slideMasters|slideLayouts|notesSlides)\/.*\.xml` completely?
(The regex is anchored at the end by `$` but not at the start.) -/
def pptxTailMatch (t : List Char) : Bool :=
  pptxDirs.any fun d =>
    let pre := ("ppt/" ++ d ++ "/").toList
    pre.isPrefixOf t &&
      (let rest := t.drop pre.length
       ".xml".toList.isSuffixOf rest && (rest.take (rest.length - 4)).all dotChar)

/-- `entry.entryName.match(/ppt\/(slides|slideMasters|slideLayouts|notesSlides)\/.*\.xml$/)`
is non-null: some suffix of the name matches the pattern up to the end. -/
def matchesPptxEntry (name : String) : Bool :=
  (List.range (name.toList.length + 1)).any fun i =>
    pptxTailMatch (name.toList.drop i)

/-- The group of the word-part regex: `document`, `header[0-9]*`,
`footer[0-9]*`, `comments`, `footnotes` or `endnotes`. -/
def docxBaseOk (l : List Char) : Bool :=
  l == "document".toList || l == "comments".toList || l == "footnotes".toList ||
  l == "endnotes".toList ||
  ("header".toList.isPrefixOf l && (l.drop 6).all Char.isDigit) ||
  ("footer".toList.isPrefixOf l && (l.drop 6).all Char.isDigit)

/-- Tail match for
`word\/(document|header[0-9]*|footer[0-9]*|comments|footnotes|endnotes)\.xml`. -/
def docxTailMatch (t : List Char) : Bool :=
  "word/".toList.isPrefixOf t &&
    (let rest := t.drop 5
     ".xml".toList.isSuffixOf rest && docxBaseOk (rest.take (rest.length - 4)))

/-- `entry.entryName.match(/word\/(document|header[0-9]*|footer[0-9]*|comments|footnotes|endnotes)\.xml$/)`
is non-null. -/
def matchesDocxEntry (name : String) : Bool :=
  (List.range (name.toList.length + 1)).any fun i =>
    docxTailMatch (name.toList.drop i)

/-- The per-transform counters `{ total: 0, translated: 0, files: 0 }`. -/
structure Stats where
  total : Nat
  translated : Nat
  files : Nat
  deriving DecidableEq

/-- One iteration of the driver loop: a matching entry has `files`
incremented, is parsed, walked and rebuilt; a parse failure is caught and the
entry's bytes stay as they are; a non-matching entry is untouched.  Returns
the resulting entry together with the increments to `files` and
`translated`. -/
def processEntry (isMatch : String → Bool) (parse : String → Option JVal)
    (build : JVal → String) (walk : JVal → JVal × Nat)
    (e : String × String) : (String × String) × Nat × Nat :=
  if isMatch e.1 then
    match parse e.2 with
    | some t =>
      let p := walk t
      ((e.1, build p.1), 1, p.2)
    | none => (e, 1, 0)
  else (e, 0, 0)

/-- The driver loop over all archive entries, accumulating stats. -/
def processEntries (isMatch : String → Bool) (parse : String → Option JVal)
    (build : JVal → String) (walk : JVal → JVal × Nat)
    (entries : List (String × String)) : List (String × String) × Stats :=
  let rs := entries.map (processEntry isMatch parse build walk)
  (rs.map Prod.fst,
   { total := 0,
     translated := (rs.map fun r => r.2.2).sum,
     files := (rs.map fun r => r.2.1).sum })

/-- `processPptx`: slide-like parts are walked with the presentation walker. -/
def processPptx (parse : String → Option JVal) (build : JVal → String)
    (tr : String → String) (entries : List (String × String)) :
    List (String × String) × Stats :=
  processEntries matchesPptxEntry parse build (translateXmlObject tr) entries

/-- `processDocx`: word parts are walked with the word-processing walker. -/
def processDocx (parse : String → Option JVal) (build : JVal → String)
    (tr : String → String) (entries : List (String × String)) :
    List (String × String) × Stats :=
  processEntries matchesDocxEntry parse build (translateDocxObject tr) entries

/-- C1: an archive entry whose name does not match the document kind's
translatable-part pattern is carried through byte-for-byte unchanged, at the
same position, by the corresponding transform. -/
theorem c1_structural_preservation (parse : String → Option JVal)
    (build : JVal → String) (tr : String → String)
    (entries : List (String × String)) (i : Nat) (e : String × String)
    (he : entries[i]? = some e) :
    (matchesPptxEntry e.1 = false →
      (processPptx parse build tr entries).1[i]? = some e) ∧
    (matchesDocxEntry e.1 = false →
      (processDocx parse build tr entries).1[i]? = some e) := by
  constructor <;> intro hm <;>
    simp [processPptx, processDocx, processEntries, List.getElem?_map, he,
      processEntry, hm]

/-- Witness for C1: `docProps/app.xml` matches neither pattern and survives
both transforms unchanged. -/
theorem c1_witness :
    (processPptx (fun _ => none) (fun _ => "") (fun s => s)
        [("docProps/app.xml", "payload")]).1[0]? =
      some ("docProps/app.xml", "payload") ∧
    (processDocx (fun _ => none) (fun _ => "") (fun s => s)
        [("docProps/app.xml", "payload")]).1[0]? =
      some ("docProps/app.xml", "payload") :=
  ⟨(c1_structural_preservation (fun _ => none) (fun _ => "") (fun s => s)
      [("docProps/app.xml", "payload")] 0 ("docProps/app.xml", "payload") rfl).1
      (by decide),
   (c1_structural_preservation (fun _ => none) (fun _ => "") (fun s => s)
      [("docProps/app.xml", "payload")] 0 ("docProps/app.xml", "payload") rfl).2
      (by decide)⟩

/-- C6's stats clause fails as stated: `stats.files++` runs before the parse
is attempted, so the `files` counter counts a matched entry even when its XML
is malformed.  Here the package's only matching entry is malformed (the
parser rejects it): no entry is successfully processed and the entry passes
through unmodified, yet the returned stats report `files = 1` — they do not
reflect only the successfully processed entries. -/
theorem c6_counterexample :
    (processPptx (fun _ => none) (fun _ => "") (fun s => s)
        [("ppt/slides/slide1.xml", "<not-xml")]).2.files = 1 ∧
    (processPptx (fun _ => none) (fun _ => "") (fun s => s)
        [("ppt/slides/slide1.xml", "<not-xml")]).2.translated = 0 ∧
    (processPptx (fun _ => none) (fun _ => "") (fun s => s)
        [("ppt/slides/slide1.xml", "<not-xml")]).1 =
      [("ppt/slides/slide1.xml", "<not-xml")] := by
  refine ⟨by decide, by decide, by decide⟩

/-- C6 amended: with one matching entry whose XML is malformed, the transform
still succeeds (the driver is total), that entry's bytes pass through
unmodified, the remaining entries are processed exactly as they would be
without it, and the translated counter reflects only the successfully
processed entries — while the files counter counts every matching entry,
including the malformed one. -/
theorem c6_fault_isolation (parse : String → Option JVal) (build : JVal → String)
    (tr : String → String) (pre post : List (String × String))
    (m : String × String) (hm : matchesPptxEntry m.1 = true)
    (hp : parse m.2 = none) :
    (processPptx parse build tr (pre ++ m :: post)).1 =
      (processPptx parse build tr pre).1 ++ m ::
        (processPptx parse build tr post).1 ∧
    (processPptx parse build tr (pre ++ m :: post)).2.translated =
      (processPptx parse build tr pre).2.translated +
        (processPptx parse build tr post).2.translated ∧
    (processPptx parse build tr (pre ++ m :: post)).2.files =
      (processPptx parse build tr pre).2.files +
        ((processPptx parse build tr post).2.files + 1) := by
  refine ⟨?_, ?_, ?_⟩ <;>
    simp [processPptx, processEntries, processEntry, hm, hp] <;> omega

/-- Witness for the amended C6. -/
theorem c6_witness :
    (processPptx (fun _ => none) (fun _ => "") (fun s => s)
        ([("a.txt", "A")] ++ ("ppt/slides/slide1.xml", "<bad") ::
          [("b.txt", "B")])).1 =
      (processPptx (fun _ => none) (fun _ => "") (fun s => s) [("a.txt", "A")]).1 ++
        ("ppt/slides/slide1.xml", "<bad") ::
          (processPptx (fun _ => none) (fun _ => "") (fun s => s)
            [("b.txt", "B")]).1 ∧
    (processPptx (fun _ => none) (fun _ => "") (fun s => s)
        ([("a.txt", "A")] ++ ("ppt/slides/slide1.xml", "<bad") ::
          [("b.txt", "B")])).2.translated =
      (processPptx (fun _ => none) (fun _ => "") (fun s => s)
          [("a.txt", "A")]).2.translated +
        (processPptx (fun _ => none) (fun _ => "") (fun s => s)
            [("b.txt", "B")]).2.translated ∧
    (processPptx (fun _ => none) (fun _ => "") (fun s => s)
        ([("a.txt", "A")] ++ ("ppt/slides/slide1.xml", "<bad") ::
          [("b.txt", "B")])).2.files =
      (processPptx (fun _ => none) (fun _ => "") (fun s => s)
          [("a.txt", "A")]).2.files +
        ((processPptx (fun _ => none) (fun _ => "") (fun s => s)
            [("b.txt", "B")]).2.files + 1) :=
  c6_fault_isolation (fun _ => none) (fun _ => "") (fun s => s)
    [("a.txt", "A")] [("b.txt", "B")] ("ppt/slides/slide1.xml", "<bad")
    (by decide) rfl

theorem processEntry_translated_pptx (parse : String → Option JVal)
    (build : JVal → String) (tr : String → String) (e : String × String)
    (hp : ∀ s t, parse s = some t → wfPptx t = true) :
    (processEntry matchesPptxEntry parse build (translateXmlObject tr) e).2.2 =
      (if matchesPptxEntry e.1 then
        match parse e.2 with
        | some t => (specFragsPptx t).length
        | none => 0
       else 0) := by
  unfold processEntry
  by_cases hm : matchesPptxEntry e.1
  · cases hpe : parse e.2 with
    | some t => simp [hm, hpe, translateXmlObject_snd tr t (hp e.2 t hpe)]
    | none => simp [hm, hpe]
  · simp [hm]

theorem processEntry_translated_docx (parse : String → Option JVal)
    (build : JVal → String) (tr : String → String) (e : String × String)
    (hd : ∀ s t, parse s = some t → wfDocx t = true) :
    (processEntry matchesDocxEntry parse build (translateDocxObject tr) e).2.2 =
      (if matchesDocxEntry e.1 then
        match parse e.2 with
        | some t => (specFragsDocx t).length
        | none => 0
       else 0) := by
  unfold processEntry
  by_cases hm : matchesDocxEntry e.1
  · cases hpe : parse e.2 with
    | some t => simp [hm, hpe, translateDocxObject_snd tr t (hd e.2 t hpe)]
    | none => simp [hm, hpe]
  · simp [hm]

/-- C8: the `translated` counter returned by a transform counts exactly the
text fragments sent through the Translation Client and written back: it
equals the sum, over matched entries that parsed successfully, of the number
of qualifying fragments (non-empty trimmed text) of the parsed tree.  The
hypotheses say the parser only produces trees whose text-run properties hold
arrays, as `xml2js` always does. -/
theorem c8_translated_counter (parse : String → Option JVal)
    (build : JVal → String) (tr : String → String)
    (entries : List (String × String))
    (hp : ∀ s t, parse s = some t → wfPptx t = true)
    (hd : ∀ s t, parse s = some t → wfDocx t = true) :
    (processPptx parse build tr entries).2.translated =
      (entries.map fun e =>
        if matchesPptxEntry e.1 then
          match parse e.2 with
          | some t => (specFragsPptx t).length
          | none => 0
        else 0).sum ∧
    (processDocx parse build tr entries).2.translated =
      (entries.map fun e =>
        if matchesDocxEntry e.1 then
          match parse e.2 with
          | some t => (specFragsDocx t).length
          | none => 0
        else 0).sum := by
  constructor
  · simp only [processPptx, processEntries, List.map_map]
    congr 1
    refine List.map_congr_left ?_
    intro e _
    exact processEntry_translated_pptx parse build tr e hp
  · simp only [processDocx, processEntries, List.map_map]
    congr 1
    refine List.map_congr_left ?_
    intro e _
    exact processEntry_translated_docx parse build tr e hd

/-- A parser stub for the C8 witness: every part parses to one slide node
with a single text run `"Hi"`. -/
def sampleParse : String → Option JVal :=
  fun _ => some (.obj (.cons "a:t" (.arr (.cons (.str "Hi") .nil)) .nil))

/-- Witness for C8 on a one-entry package. -/
theorem c8_witness :
    (processPptx sampleParse (fun _ => "") (fun s => s)
        [("ppt/slides/slide1.xml", "x")]).2.translated =
      ([("ppt/slides/slide1.xml", "x")].map fun e =>
        if matchesPptxEntry e.1 then
          match sampleParse e.2 with
          | some t => (specFragsPptx t).length
          | none => 0
        else 0).sum ∧
    (processDocx sampleParse (fun _ => "") (fun s => s)
        [("ppt/slides/slide1.xml", "x")]).2.translated =
      ([("ppt/slides/slide1.xml", "x")].map fun e =>
        if matchesDocxEntry e.1 then
          match sampleParse e.2 with
          | some t => (specFragsDocx t).length
          | none => 0
        else 0).sum :=
  c8_translated_counter sampleParse (fun _ => "") (fun s => s)
    [("ppt/slides/slide1.xml", "x")]
    (fun _ t h => Option.some.inj h ▸ (by decide))
    (fun _ t h => Option.some.inj h ▸ (by decide))
